import Mathlib

/-!
Verification of the Bedrock catalog pipeline:
`scripts/find_beta_models.py` (Beta Classifier) and
`scripts/refresh-bedrock-data.py` (Region Prober, Model/Profile Fetchers,
Catalog Merger, run driver), shallowly embedded in Lean.

Strings are modelled as Lean `String` (a wrapper around `List Char`);
Python's per-character ASCII lowercasing `str.lower` is modelled by
mapping `Char.toLower`.
-/

namespace Bedrock

/-- `startsWithL hay needle` : `needle` is an initial segment of `hay`
(character-level model of Python substring search starting at index 0). -/
def startsWithL : List Char → List Char → Bool
  | _, [] => true
  | [], _ :: _ => false
  | a :: as, b :: bs => a == b && startsWithL as bs

/-- `containsSub hay needle` models Python's `needle in hay`:
`needle` occurs as a contiguous substring of `hay`. -/
def containsSub : List Char → List Char → Bool
  | [], needle => needle.isEmpty
  | hay@(_ :: t), needle => startsWithL hay needle || containsSub t needle

/-- Python `needle in hay` at the `String` level. -/
def strContains (hay needle : String) : Bool :=
  containsSub hay.data needle.data

/-- Model of Python `str.lower()` (per-character ASCII case folding). -/
def strLower (s : String) : String :=
  ⟨s.data.map Char.toLower⟩

/-! ## Beta Classifier data model (`find_beta_models.py`)

A catalog record as consumed by `find_beta_models`: `load_models_json`
keeps `modelId`, `modelName`, `providerName` and the full model, from
which the classifier later reads `modelLifecycle.status`.
`full_model.get('modelLifecycle', {}).get('status', '')` is modelled by
`Option (Option String)`: `none` = no `modelLifecycle` field,
`some none` = field present but no `status` subfield. -/

structure ModelRecord where
  modelId : String
  modelName : String
  providerName : String
  modelLifecycle : Option (Option String)
  deriving DecidableEq, Repr

/-- `full_model.get('modelLifecycle', {}).get('status', '')`. -/
def effStatus (m : ModelRecord) : String :=
  match m.modelLifecycle with
  | none => ""
  | some none => ""
  | some (some s) => s

/-- The record appended to `beta_models` / `found_models`:
`{'id': ..., 'name': ..., 'provider': ...}`. -/
structure BetaEntry where
  id : String
  name : String
  provider : String
  deriving DecidableEq, Repr

def mkEntry (m : ModelRecord) : BetaEntry :=
  { id := m.modelId, name := m.modelName, provider := m.providerName }

/-- `find_beta_models(models_data, html_content)` from
`scripts/find_beta_models.py`: returns `(beta_models, found_models)`.
Skips records with lifecycle status `'LEGACY'`; otherwise tries the exact
substring match `model_name in html_content`, then the case-insensitive
one, appending to `found_models` on success and to `beta_models`
otherwise. The input list stands for the insertion-ordered items of the
`models_data` dict. -/
def find_beta_models : List ModelRecord → String → List BetaEntry × List BetaEntry
  | [], _ => ([], [])
  | m :: rest, html =>
    let p := find_beta_models rest html
    if effStatus m == "LEGACY" then
      p
    else if strContains html m.modelName then
      (p.1, mkEntry m :: p.2)
    else if strContains (strLower html) (strLower m.modelName) then
      (p.1, mkEntry m :: p.2)
    else
      (mkEntry m :: p.1, p.2)

/-- Whether the classifier's two-phase substring test succeeds for a
name against a document. -/
def nameMatches (html name : String) : Bool :=
  strContains html name || strContains (strLower html) (strLower name)

lemma find_beta_models_cons (m : ModelRecord) (rest : List ModelRecord) (html : String) :
    find_beta_models (m :: rest) html =
      if effStatus m == "LEGACY" then find_beta_models rest html
      else if nameMatches html m.modelName then
        ((find_beta_models rest html).1, mkEntry m :: (find_beta_models rest html).2)
      else
        (mkEntry m :: (find_beta_models rest html).1, (find_beta_models rest html).2) := by
  simp only [find_beta_models, nameMatches]
  rcases Bool.eq_false_or_eq_true (strContains html m.modelName) with h1 | h1 <;>
    simp [h1]

/-- Every entry of the `found_models` partition comes from a non-LEGACY
record of the input whose name passes the two-phase substring test. -/
lemma found_src (models : List ModelRecord) (html : String) :
    ∀ e ∈ (find_beta_models models html).2,
      ∃ m, m ∈ models ∧ effStatus m ≠ "LEGACY" ∧ e = mkEntry m ∧
        nameMatches html m.modelName = true := by
  induction models with
  | nil => intro e he; simp [find_beta_models] at he
  | cons m rest ih =>
    intro e he
    rw [find_beta_models_cons] at he
    by_cases hleg : effStatus m = "LEGACY"
    · simp only [hleg, beq_self_eq_true, if_true] at he
      obtain ⟨m', h1, h2, h3, h4⟩ := ih e he
      exact ⟨m', List.mem_cons_of_mem _ h1, h2, h3, h4⟩
    · cases hn : nameMatches html m.modelName with
      | true =>
        simp only [beq_iff_eq, hleg, if_false, hn, if_true] at he
        rcases List.mem_cons.mp he with rfl | hmem
        · exact ⟨m, List.mem_cons_self m rest, hleg, rfl, hn⟩
        · obtain ⟨m', h1, h2, h3, h4⟩ := ih e hmem
          exact ⟨m', List.mem_cons_of_mem _ h1, h2, h3, h4⟩
      | false =>
        simp only [beq_iff_eq, hleg, if_false, hn, Bool.false_eq_true] at he
        obtain ⟨m', h1, h2, h3, h4⟩ := ih e he
        exact ⟨m', List.mem_cons_of_mem _ h1, h2, h3, h4⟩

/-- Every entry of the `beta_models` partition comes from a non-LEGACY
record of the input whose name fails the two-phase substring test. -/
lemma beta_src (models : List ModelRecord) (html : String) :
    ∀ e ∈ (find_beta_models models html).1,
      ∃ m, m ∈ models ∧ effStatus m ≠ "LEGACY" ∧ e = mkEntry m ∧
        nameMatches html m.modelName = false := by
  induction models with
  | nil => intro e he; simp [find_beta_models] at he
  | cons m rest ih =>
    intro e he
    rw [find_beta_models_cons] at he
    by_cases hleg : effStatus m = "LEGACY"
    · simp only [hleg, beq_self_eq_true, if_true] at he
      obtain ⟨m', h1, h2, h3, h4⟩ := ih e he
      exact ⟨m', List.mem_cons_of_mem _ h1, h2, h3, h4⟩
    · cases hn : nameMatches html m.modelName with
      | true =>
        simp only [beq_iff_eq, hleg, if_false, hn, if_true] at he
        obtain ⟨m', h1, h2, h3, h4⟩ := ih e he
        exact ⟨m', List.mem_cons_of_mem _ h1, h2, h3, h4⟩
      | false =>
        simp only [beq_iff_eq, hleg, if_false, hn, Bool.false_eq_true] at he
        rcases List.mem_cons.mp he with rfl | hmem
        · exact ⟨m, List.mem_cons_self m rest, hleg, rfl, hn⟩
        · obtain ⟨m', h1, h2, h3, h4⟩ := ih e hmem
          exact ⟨m', List.mem_cons_of_mem _ h1, h2, h3, h4⟩

/-- A non-LEGACY record whose name passes the substring test lands in
`found_models`. -/
lemma mem_found (models : List ModelRecord) (html : String) (m : ModelRecord)
    (hm : m ∈ models) (hleg : effStatus m ≠ "LEGACY")
    (hn : nameMatches html m.modelName = true) :
    mkEntry m ∈ (find_beta_models models html).2 := by
  induction models with
  | nil => cases hm
  | cons a rest ih =>
    rw [find_beta_models_cons]
    rcases List.mem_cons.mp hm with rfl | hm'
    · simp [hleg, hn]
    · by_cases haleg : effStatus a = "LEGACY"
      · simpa [haleg] using ih hm'
      · cases hna : nameMatches html a.modelName
        · simpa [haleg, hna] using ih hm'
        · simp only [beq_iff_eq, haleg, if_false, hna, if_true]
          exact List.mem_cons_of_mem _ (ih hm')

/-- A non-LEGACY record whose name fails the substring test lands in
`beta_models`. -/
lemma mem_beta (models : List ModelRecord) (html : String) (m : ModelRecord)
    (hm : m ∈ models) (hleg : effStatus m ≠ "LEGACY")
    (hn : nameMatches html m.modelName = false) :
    mkEntry m ∈ (find_beta_models models html).1 := by
  induction models with
  | nil => cases hm
  | cons a rest ih =>
    rw [find_beta_models_cons]
    rcases List.mem_cons.mp hm with rfl | hm'
    · simp [hleg, hn]
    · by_cases haleg : effStatus a = "LEGACY"
      · simpa [haleg] using ih hm'
      · cases hna : nameMatches html a.modelName
        · simp only [beq_iff_eq, haleg, if_false, hna, Bool.false_eq_true]
          exact List.mem_cons_of_mem _ (ih hm')
        · simpa [haleg, hna] using ih hm'

/-- The empty needle is a substring of any haystack (Python's `"" in s`). -/
lemma strContains_empty (s : String) : strContains s "" = true := by
  show containsSub s.data [] = true
  cases s.data with
  | nil => rfl
  | cons a t => simp [containsSub, startsWithL]

/-- An active record whose `modelName` is the empty string. -/
def mEmptyName : ModelRecord :=
  { modelId := "provider.model-v1", modelName := "", providerName := "ProviderX",
    modelLifecycle := some (some "ACTIVE") }

/-- C1: the code puts an empty-named, non-LEGACY entry in the `found`
partition for every documentation text (Python's `"" in s` is always
true and `find_beta_models` does not guard it), contradicting the
spec's requirement that such an entry be classified `beta`. -/
theorem c1_empty_name_lands_in_found (html : String) :
    find_beta_models [mEmptyName] html = ([], [mkEntry mEmptyName]) := by
  rw [find_beta_models_cons]
  have hn : nameMatches html mEmptyName.modelName = true := by
    show nameMatches html "" = true
    simp [nameMatches, strContains_empty]
  have hleg : (effStatus mEmptyName == "LEGACY") = false := by decide
  simp [hleg, hn, find_beta_models]

/-- C2: a non-LEGACY record is classified `found` iff its name occurs
as an exact case-sensitive substring of the document or as a
case-insensitive substring of it, and classified `beta` otherwise. -/
theorem c2_found_iff_substring (models : List ModelRecord) (html : String)
    (m : ModelRecord) (hm : m ∈ models) (hleg : effStatus m ≠ "LEGACY") :
    (mkEntry m ∈ (find_beta_models models html).2 ↔
      (strContains html m.modelName = true ∨
        strContains (strLower html) (strLower m.modelName) = true)) ∧
    (mkEntry m ∈ (find_beta_models models html).1 ↔
      ¬(strContains html m.modelName = true ∨
        strContains (strLower html) (strLower m.modelName) = true)) := by
  constructor
  · constructor
    · intro he
      obtain ⟨m', _, _, hme, hn⟩ := found_src models html _ he
      have hname : m'.modelName = m.modelName := congrArg BetaEntry.name hme.symm
      rw [hname] at hn
      simpa [nameMatches, Bool.or_eq_true] using hn
    · intro hor
      exact mem_found models html m hm hleg (by simpa [nameMatches, Bool.or_eq_true] using hor)
  · constructor
    · intro he hor
      obtain ⟨m', _, _, hme, hn⟩ := beta_src models html _ he
      have hname : m'.modelName = m.modelName := congrArg BetaEntry.name hme.symm
      rw [hname] at hn
      rw [show nameMatches html m.modelName =
            (strContains html m.modelName || strContains (strLower html) (strLower m.modelName))
          from rfl, Bool.or_eq_false_iff] at hn
      rcases hor with h | h
      · rw [hn.1] at h; cases h
      · rw [hn.2] at h; cases h
    · intro hor
      refine mem_beta models html m hm hleg ?_
      rw [show nameMatches html m.modelName =
            (strContains html m.modelName || strContains (strLower html) (strLower m.modelName))
          from rfl, Bool.or_eq_false_iff]
      constructor
      · rcases Bool.eq_false_or_eq_true (strContains html m.modelName) with h | h
        · exact absurd (Or.inl h) hor
        · exact h
      · rcases Bool.eq_false_or_eq_true
            (strContains (strLower html) (strLower m.modelName)) with h | h
        · exact absurd (Or.inr h) hor
        · exact h

/-- A record whose name matches the document only case-insensitively. -/
def mCaseX : ModelRecord :=
  { modelId := "x.model-x-v1", modelName := "MODEL-X", providerName := "XCorp",
    modelLifecycle := some (some "ACTIVE") }

/-- Witness for C2 at a concrete input: `"MODEL-X"` against a document
containing only `"model-x"` is classified `found` (case-insensitive
fallback, Scenario C). -/
theorem c2_found_iff_substring_witness :
    mkEntry mCaseX ∈ (find_beta_models [mCaseX] "the model-x docs").2 :=
  ((c2_found_iff_substring [mCaseX] "the model-x docs" mCaseX (by decide)
      (by decide)).1).2 (Or.inr (by decide))

/-- C5: LEGACY-status records contribute to neither partition: the
output equals the output on the non-LEGACY sublist, and every entry of
either partition originates from a non-LEGACY input record. -/
theorem c5_legacy_in_neither_partition (models : List ModelRecord) (html : String) :
    find_beta_models models html =
      find_beta_models (models.filter (fun m => ! (effStatus m == "LEGACY"))) html ∧
    ∀ e, (e ∈ (find_beta_models models html).1 ∨ e ∈ (find_beta_models models html).2) →
      ∃ m, m ∈ models ∧ effStatus m ≠ "LEGACY" ∧ e = mkEntry m := by
  constructor
  · induction models with
    | nil => rfl
    | cons m rest ih =>
      by_cases hleg : effStatus m = "LEGACY"
      · rw [find_beta_models_cons]
        simp only [hleg, beq_self_eq_true, if_true, List.filter_cons, Bool.not_true,
          Bool.false_eq_true, if_false]
        exact ih
      · rw [find_beta_models_cons]
        have hb : (effStatus m == "LEGACY") = false := by simpa using hleg
        simp only [hb, Bool.false_eq_true, if_false, List.filter_cons, Bool.not_false, if_true]
        rw [find_beta_models_cons, hb, ih]
        simp
  · intro e he
    rcases he with he | he
    · obtain ⟨m, h1, h2, h3, _⟩ := beta_src models html e he
      exact ⟨m, h1, h2, h3⟩
    · obtain ⟨m, h1, h2, h3, _⟩ := found_src models html e he
      exact ⟨m, h1, h2, h3⟩

/-- Witness for C5 at a concrete input: the single beta entry of a
concrete run originates from a non-LEGACY record. -/
theorem c5_legacy_in_neither_partition_witness :
    ∃ m, m ∈ [mCaseX] ∧ effStatus m ≠ "LEGACY" ∧ mkEntry mCaseX = mkEntry m :=
  (c5_legacy_in_neither_partition [mCaseX] "no mention").2 (mkEntry mCaseX)
    (Or.inl (by decide))

/-- A record with lowercase status string `"legacy"`. -/
def mLowerLegacy : ModelRecord :=
  { modelId := "y.old-model", modelName := "Old Model", providerName := "YCorp",
    modelLifecycle := some (some "legacy") }

/-- C10: only the exact string `'LEGACY'` causes a skip: every record
whose effective status differs from `"LEGACY"` (including records with
no `modelLifecycle` field or no `status` subfield, whose effective
status is `""`, and records with `"legacy"`/`"Legacy"`) lands in
exactly one of the two partitions, which are disjoint. -/
theorem c10_exact_legacy_skip_and_partition :
    (∀ (models : List ModelRecord) (html : String) (m : ModelRecord),
      m ∈ models → effStatus m ≠ "LEGACY" →
        (mkEntry m ∈ (find_beta_models models html).2 ∧
          mkEntry m ∉ (find_beta_models models html).1) ∨
        (mkEntry m ∈ (find_beta_models models html).1 ∧
          mkEntry m ∉ (find_beta_models models html).2)) ∧
    (∀ m : ModelRecord, m.modelLifecycle = none ∨ m.modelLifecycle = some none →
      effStatus m = "") := by
  constructor
  · intro models html m hm hleg
    have disj : ∀ e, e ∈ (find_beta_models models html).2 →
        e ∈ (find_beta_models models html).1 → False := by
      intro e hf hb
      obtain ⟨m1, _, _, he1, hn1⟩ := found_src models html e hf
      obtain ⟨m2, _, _, he2, hn2⟩ := beta_src models html e hb
      have hname : m1.modelName = m2.modelName :=
        congrArg BetaEntry.name (he1.symm.trans he2)
      rw [hname, hn2] at hn1
      cases hn1
    rcases Bool.eq_false_or_eq_true (nameMatches html m.modelName) with hn | hn
    · exact Or.inl ⟨mem_found models html m hm hleg hn,
        fun hb => disj _ (mem_found models html m hm hleg hn) hb⟩
    · exact Or.inr ⟨mem_beta models html m hm hleg hn,
        fun hf => disj _ hf (mem_beta models html m hm hleg hn)⟩
  · intro m hml
    rcases hml with h | h <;> simp [effStatus, h]

/-- Witness for C10 at a concrete input: a record with status
`"legacy"` (lowercase) is not skipped — it lands in exactly one
partition. -/
theorem c10_exact_legacy_skip_and_partition_witness :
    (mkEntry mLowerLegacy ∈ (find_beta_models [mLowerLegacy] "nothing here").2 ∧
      mkEntry mLowerLegacy ∉ (find_beta_models [mLowerLegacy] "nothing here").1) ∨
    (mkEntry mLowerLegacy ∈ (find_beta_models [mLowerLegacy] "nothing here").1 ∧
      mkEntry mLowerLegacy ∉ (find_beta_models [mLowerLegacy] "nothing here").2) :=
  c10_exact_legacy_skip_and_partition.1 [mLowerLegacy] "nothing here" mLowerLegacy
    (by decide) (by decide)

/-! ## Catalog Merger data model (`refresh-bedrock-data.py`)

A model descriptor as returned by `list_foundation_models`: the
identity key `modelId` may be absent (`model.get("modelId")` returns
`None`), and the remaining representative payload fields mirror the
ones the pipeline and the classifier consume. The merged catalog is
the insertion-ordered `models_by_id` dict, modelled as a list of
entries (dict keys are unique and iterate in insertion order). -/

structure Descriptor where
  modelId : Option String
  modelName : String
  providerName : String
  modelLifecycle : Option (Option String)
  deriving DecidableEq, Repr

structure CatalogEntry where
  modelId : String
  modelName : String
  providerName : String
  modelLifecycle : Option (Option String)
  regions : List String
  deriving DecidableEq, Repr

/-- Python's falsy guard `if not model_id: continue`: the key is
effective only when present and non-empty. -/
def identityKey (d : Descriptor) : Option String :=
  match d.modelId with
  | none => none
  | some s => if s = "" then none else some s

/-- `self.models_by_id[model_id] = model.copy()` followed by
`...["regions"] = [region]`. -/
def initEntry (d : Descriptor) (mid : String) (region : String) : CatalogEntry :=
  { modelId := mid, modelName := d.modelName, providerName := d.providerName,
    modelLifecycle := d.modelLifecycle, regions := [region] }

/-- `if region not in self.models_by_id[model_id]["regions"]: ...append(region)`:
update the (unique) entry keyed by `mid`, appending `region` if new. -/
def addRegion (region : String) (mid : String) : List CatalogEntry → List CatalogEntry
  | [] => []
  | e :: rest =>
    if e.modelId == mid then
      (if region ∈ e.regions then e else { e with regions := e.regions ++ [region] }) :: rest
    else
      e :: addRegion region mid rest

/-- One iteration of the inner loop of `deduplicate_and_collect_models`
for a single descriptor of `region`'s fetched list. -/
def mergeDescriptor (region : String) (catalog : List CatalogEntry) (d : Descriptor) :
    List CatalogEntry :=
  match identityKey d with
  | none => catalog
  | some mid =>
    if catalog.any (fun e => e.modelId == mid) then
      addRegion region mid catalog
    else
      catalog ++ [initEntry d mid region]

/-- The inner loop over one region's descriptor list. -/
def mergeRegion (catalog : List CatalogEntry) (region : String) (ds : List Descriptor) :
    List CatalogEntry :=
  ds.foldl (mergeDescriptor region) catalog

/-- `deduplicate_and_collect_models`: the outer loop over
`self.supported_regions`, with each region's fetched descriptor list
supplied as input (the fetch itself is the Model Fetcher's concern). -/
def deduplicate_and_collect_models (fetches : List (String × List Descriptor)) :
    List CatalogEntry :=
  fetches.foldl (fun c rf => mergeRegion c rf.1 rf.2) []

/-- The descriptive (non-`regions`) fields of a catalog entry. -/
def payloadOf (e : CatalogEntry) : String × String × String × Option (Option String) :=
  (e.modelId, e.modelName, e.providerName, e.modelLifecycle)

/-- The catalog invariant: one entry per `modelId` and duplicate-free
region lists. -/
def CatalogInv (c : List CatalogEntry) : Prop :=
  (c.map CatalogEntry.modelId).Nodup ∧ ∀ e ∈ c, e.regions.Nodup

instance (c : List CatalogEntry) : Decidable (CatalogInv c) := by
  unfold CatalogInv
  infer_instance

/-- How one merge step may change a single entry: payload untouched,
regions either unchanged or extended by the new region at the end. -/
def RegionStep (r : String) (e e' : CatalogEntry) : Prop :=
  payloadOf e' = payloadOf e ∧
  (e'.regions = e.regions ∨ (r ∉ e.regions ∧ e'.regions = e.regions ++ [r]))

lemma regionStep_refl (r : String) (e : CatalogEntry) : RegionStep r e e :=
  ⟨rfl, Or.inl rfl⟩

lemma addRegion_forall2 (r mid : String) (c : List CatalogEntry) :
    List.Forall₂ (RegionStep r) c (addRegion r mid c) := by
  induction c with
  | nil => exact List.Forall₂.nil
  | cons e rest ih =>
    simp only [addRegion]
    by_cases h : e.modelId = mid
    · have hb : (e.modelId == mid) = true := by simpa using h
      simp only [hb, if_true]
      refine List.Forall₂.cons ?_ (List.forall₂_same.2 fun x _ => regionStep_refl r x)
      by_cases hr : r ∈ e.regions
      · simp only [hr, if_true]; exact regionStep_refl r e
      · simp only [hr, if_false]
        exact ⟨rfl, Or.inr ⟨hr, rfl⟩⟩
    · have hb : (e.modelId == mid) = false := by simpa using h
      simp only [hb, Bool.false_eq_true, if_false]
      exact List.Forall₂.cons (regionStep_refl r e) ih

lemma forall2_map_payload {r : String} :
    ∀ {c c' : List CatalogEntry}, List.Forall₂ (RegionStep r) c c' →
      c'.map payloadOf = c.map payloadOf := by
  intro c c' h
  induction h with
  | nil => rfl
  | cons h1 _ ih => simp [ih, h1.1]

lemma map_payload_modelId (c c' : List CatalogEntry)
    (h : c'.map payloadOf = c.map payloadOf) :
    c'.map CatalogEntry.modelId = c.map CatalogEntry.modelId := by
  have h2 := congrArg (List.map Prod.fst) h
  simpa [List.map_map] using h2

lemma forall2_mem_left {r : String} :
    ∀ {c c' : List CatalogEntry}, List.Forall₂ (RegionStep r) c c' →
      ∀ e ∈ c, ∃ e', e' ∈ c' ∧ RegionStep r e e' := by
  intro c c' h
  induction h with
  | nil => intro e he; cases he
  | cons h1 _ ih =>
    intro e he
    rcases List.mem_cons.mp he with rfl | hmem
    · exact ⟨_, List.mem_cons_self _ _, h1⟩
    · obtain ⟨e', he', hs⟩ := ih e hmem
      exact ⟨e', List.mem_cons_of_mem _ he', hs⟩

lemma forall2_mem_right {r : String} :
    ∀ {c c' : List CatalogEntry}, List.Forall₂ (RegionStep r) c c' →
      ∀ e' ∈ c', ∃ e, e ∈ c ∧ RegionStep r e e' := by
  intro c c' h
  induction h with
  | nil => intro e he; cases he
  | cons h1 _ ih =>
    intro e' he'
    rcases List.mem_cons.mp he' with rfl | hmem
    · exact ⟨_, List.mem_cons_self _ _, h1⟩
    · obtain ⟨e, he, hs⟩ := ih e' hmem
      exact ⟨e, List.mem_cons_of_mem _ he, hs⟩

lemma regionStep_nodup {r : String} {e e' : CatalogEntry}
    (hs : RegionStep r e e') (hn : e.regions.Nodup) : e'.regions.Nodup := by
  rcases hs.2 with h | ⟨hr, h⟩
  · rwa [h]
  · rw [h]
    simp only [List.nodup_append, List.nodup_cons, List.not_mem_nil, not_false_iff,
      List.nodup_nil, and_true, true_and]
    refine ⟨hn, ?_⟩
    intro a ha hb
    rcases List.mem_singleton.mp hb with rfl
    exact hr ha

lemma regionStep_modelId {r : String} {e e' : CatalogEntry}
    (hs : RegionStep r e e') : e'.modelId = e.modelId :=
  congrArg Prod.fst hs.1

lemma regionStep_prefix {r : String} {e e' : CatalogEntry}
    (hs : RegionStep r e e') : e.regions <+: e'.regions := by
  rcases hs.2 with h | ⟨_, h⟩
  · rw [h]
  · rw [h]; exact List.prefix_append _ _

/-- `mergeDescriptor` never loses an entry: every old entry has a
successor with the same payload and unchanged-or-appended regions. -/
lemma mergeDescriptor_mem (region : String) (catalog : List CatalogEntry)
    (d : Descriptor) :
    ∀ e ∈ catalog, ∃ e', e' ∈ mergeDescriptor region catalog d ∧
      RegionStep region e e' := by
  intro e he
  unfold mergeDescriptor
  cases identityKey d with
  | none => exact ⟨e, he, regionStep_refl region e⟩
  | some mid =>
    by_cases hany : (catalog.any fun e => e.modelId == mid) = true
    · simp only [hany, if_true]
      exact forall2_mem_left (addRegion_forall2 region mid catalog) e he
    · simp only [hany, if_false]
      exact ⟨e, List.mem_append_left _ he, regionStep_refl region e⟩

lemma mergeDescriptor_inv (region : String) (catalog : List CatalogEntry)
    (d : Descriptor) (hinv : CatalogInv catalog) :
    CatalogInv (mergeDescriptor region catalog d) := by
  obtain ⟨hid, hreg⟩ := hinv
  unfold mergeDescriptor
  cases identityKey d with
  | none => exact ⟨hid, hreg⟩
  | some mid =>
    by_cases hany : (catalog.any fun e => e.modelId == mid) = true
    · simp only [hany, if_true]
      have hf := addRegion_forall2 region mid catalog
      constructor
      · rw [map_payload_modelId _ _ (forall2_map_payload hf)]
        exact hid
      · intro e' he'
        obtain ⟨e, he, hs⟩ := forall2_mem_right hf e' he'
        exact regionStep_nodup hs (hreg e he)
    · rw [Bool.not_eq_true] at hany
      simp only [hany, Bool.false_eq_true, if_false]
      constructor
      · rw [List.map_append]
        have hall : ∀ e ∈ catalog, ¬(e.modelId = mid) := by
          intro e he
          have hb := List.any_eq_false.mp hany e he
          simpa using hb
        have hnot : mid ∉ catalog.map CatalogEntry.modelId := by
          intro hm
          obtain ⟨e, he, hme⟩ := List.mem_map.mp hm
          exact hall e he hme
        simp only [List.map_cons, List.map_nil, List.nodup_append, List.nodup_cons,
          List.not_mem_nil, not_false_iff, List.nodup_nil, and_true, true_and]
        refine ⟨hid, ?_⟩
        intro a ha hb
        rcases List.mem_singleton.mp hb with rfl
        exact hnot ha
      · intro e' he'
        rcases List.mem_append.mp he' with h | h
        · exact hreg e' h
        · rcases List.mem_singleton.mp h with rfl
          simp [initEntry]

lemma mergeRegion_inv (region : String) (ds : List Descriptor) :
    ∀ catalog : List CatalogEntry, CatalogInv catalog →
      CatalogInv (mergeRegion catalog region ds) := by
  induction ds with
  | nil => intro catalog h; exact h
  | cons d rest ih =>
    intro catalog h
    exact ih (mergeDescriptor region catalog d) (mergeDescriptor_inv region catalog d h)

lemma catalogInv_nil : CatalogInv [] := by
  constructor
  · exact List.nodup_nil
  · intro e he; cases he

lemma dedup_inv_from (fetches : List (String × List Descriptor)) :
    ∀ catalog : List CatalogEntry, CatalogInv catalog →
      CatalogInv (fetches.foldl (fun c rf => mergeRegion c rf.1 rf.2) catalog) := by
  induction fetches with
  | nil => intro catalog h; exact h
  | cons rf rest ih =>
    intro catalog h
    exact ih _ (mergeRegion_inv rf.1 rf.2 catalog h)

/-- C3: the merged catalog always has one entry per `modelId` with
duplicate-free region lists, and each per-descriptor merge step
preserves this invariant while only ever growing each entry's region
list (the old list is a prefix of the new one). -/
theorem c3_catalog_invariants :
    (∀ fetches : List (String × List Descriptor),
      CatalogInv (deduplicate_and_collect_models fetches)) ∧
    (∀ (catalog : List CatalogEntry) (region : String) (d : Descriptor),
      CatalogInv catalog →
      CatalogInv (mergeDescriptor region catalog d) ∧
      ∀ e ∈ catalog, ∃ e', e' ∈ mergeDescriptor region catalog d ∧
        e'.modelId = e.modelId ∧ e.regions <+: e'.regions) := by
  constructor
  · intro fetches
    exact dedup_inv_from fetches [] catalogInv_nil
  · intro catalog region d hinv
    refine ⟨mergeDescriptor_inv region catalog d hinv, ?_⟩
    intro e he
    obtain ⟨e', he', hs⟩ := mergeDescriptor_mem region catalog d e he
    exact ⟨e', he', regionStep_modelId hs, regionStep_prefix hs⟩

/-- Scenario A, region "a"'s descriptor. -/
def dFooA : Descriptor :=
  { modelId := some "m1", modelName := "Foo", providerName := "P",
    modelLifecycle := some (some "ACTIVE") }

/-- Scenario A, region "b"'s descriptor: same id, different casing. -/
def dFooB : Descriptor :=
  { modelId := some "m1", modelName := "FOO", providerName := "P",
    modelLifecycle := some (some "ACTIVE") }

/-- A one-entry catalog used to instantiate the merge-step theorems. -/
def cat0 : List CatalogEntry :=
  [{ modelId := "m1", modelName := "Foo", providerName := "P",
     modelLifecycle := some (some "ACTIVE"), regions := ["a"] }]

/-- Witness for C3 at a concrete input. -/
theorem c3_catalog_invariants_witness :
    CatalogInv (mergeDescriptor "b" cat0 dFooB) ∧
    ∀ e ∈ cat0, ∃ e', e' ∈ mergeDescriptor "b" cat0 dFooB ∧
      e'.modelId = e.modelId ∧ e.regions <+: e'.regions :=
  c3_catalog_invariants.2 cat0 "b" dFooB (by decide)

/-- C4: merging a descriptor whose `modelId` is already in the catalog
changes no descriptive field of any entry (first-seen payload wins) and
at most appends the new region; Scenario A evaluates as specified. -/
theorem c4_first_seen_payload_wins :
    (∀ (catalog : List CatalogEntry) (region : String) (d : Descriptor) (mid : String),
      identityKey d = some mid →
      (catalog.any fun e => e.modelId == mid) = true →
      (mergeDescriptor region catalog d).map payloadOf = catalog.map payloadOf ∧
      ∀ e ∈ catalog, ∃ e', e' ∈ mergeDescriptor region catalog d ∧
        payloadOf e' = payloadOf e ∧
        (e'.regions = e.regions ∨ e'.regions = e.regions ++ [region])) ∧
    deduplicate_and_collect_models [("a", [dFooA]), ("b", [dFooB])] =
      [{ modelId := "m1", modelName := "Foo", providerName := "P",
         modelLifecycle := some (some "ACTIVE"), regions := ["a", "b"] }] := by
  constructor
  · intro catalog region d mid hkey hany
    have hmerge : mergeDescriptor region catalog d = addRegion region mid catalog := by
      unfold mergeDescriptor
      rw [hkey]
      simp [hany]
    rw [hmerge]
    have hf := addRegion_forall2 region mid catalog
    refine ⟨forall2_map_payload hf, ?_⟩
    intro e he
    obtain ⟨e', he', hs⟩ := forall2_mem_left hf e he
    rcases hs.2 with h | ⟨_, h⟩
    · exact ⟨e', he', hs.1, Or.inl h⟩
    · exact ⟨e', he', hs.1, Or.inr h⟩
  · decide

/-- Witness for C4 at a concrete input. -/
theorem c4_first_seen_payload_wins_witness :
    (mergeDescriptor "b" cat0 dFooB).map payloadOf = cat0.map payloadOf ∧
    ∀ e ∈ cat0, ∃ e', e' ∈ mergeDescriptor "b" cat0 dFooB ∧
      payloadOf e' = payloadOf e ∧
      (e'.regions = e.regions ∨ e'.regions = e.regions ++ ["b"]) :=
  c4_first_seen_payload_wins.1 cat0 "b" dFooB "m1" (by decide) (by decide)

/-- A descriptor with no `modelId` field at all. -/
def dNoId : Descriptor :=
  { modelId := none, modelName := "Mystery", providerName := "P",
    modelLifecycle := none }

/-- C8: a descriptor lacking its `modelId` identity key is dropped: the
merge step leaves the catalog unchanged (and, being a total function,
never crashes). -/
theorem c8_missing_id_dropped (catalog : List CatalogEntry) (region : String)
    (d : Descriptor) (h : d.modelId = none) :
    mergeDescriptor region catalog d = catalog := by
  simp [mergeDescriptor, identityKey, h]

/-- Witness for C8 at a concrete input. -/
theorem c8_missing_id_dropped_witness :
    mergeDescriptor "a" cat0 dNoId = cat0 :=
  c8_missing_id_dropped cat0 "a" dNoId rfl

lemma mergeRegion_cons (catalog : List CatalogEntry) (region : String)
    (d : Descriptor) (ds : List Descriptor) :
    mergeRegion catalog region (d :: ds) =
      mergeRegion (mergeDescriptor region catalog d) region ds := rfl

lemma mergeDescriptor_regions_single (r : String) (c : List CatalogEntry)
    (d : Descriptor) (hc : ∀ e ∈ c, e.regions = [r]) :
    ∀ e' ∈ mergeDescriptor r c d, e'.regions = [r] := by
  unfold mergeDescriptor
  cases identityKey d with
  | none => exact hc
  | some mid =>
    by_cases hany : (c.any fun e => e.modelId == mid) = true
    · simp only [hany, if_true]
      intro e' he'
      obtain ⟨e, he, hs⟩ := forall2_mem_right (addRegion_forall2 r mid c) e' he'
      rcases hs.2 with h | ⟨hr, h⟩
      · rw [h]; exact hc e he
      · exact absurd (by rw [hc e he]; exact List.mem_singleton.mpr rfl) hr
    · rw [Bool.not_eq_true] at hany
      simp only [hany, Bool.false_eq_true, if_false]
      intro e' he'
      rcases List.mem_append.mp he' with h | h
      · exact hc e' h
      · rcases List.mem_singleton.mp h with rfl
        rfl

lemma mergeRegion_regions_single (r : String) (ds : List Descriptor) :
    ∀ c : List CatalogEntry, (∀ e ∈ c, e.regions = [r]) →
      ∀ e ∈ mergeRegion c r ds, e.regions = [r] := by
  induction ds with
  | nil => intro c hc; exact hc
  | cons d rest ih =>
    intro c hc
    rw [mergeRegion_cons]
    exact ih _ (mergeDescriptor_regions_single r c d hc)

lemma mergeDescriptor_modelId_sup (r : String) (c : List CatalogEntry)
    (d : Descriptor) (mid : String)
    (hm : mid ∈ c.map CatalogEntry.modelId) :
    mid ∈ (mergeDescriptor r c d).map CatalogEntry.modelId := by
  unfold mergeDescriptor
  cases identityKey d with
  | none => exact hm
  | some mid' =>
    by_cases hany : (c.any fun e => e.modelId == mid') = true
    · simp only [hany, if_true]
      rw [map_payload_modelId _ _ (forall2_map_payload (addRegion_forall2 r mid' c))]
      exact hm
    · rw [Bool.not_eq_true] at hany
      simp only [hany, Bool.false_eq_true, if_false, List.map_append]
      exact List.mem_append_left _ hm

lemma mergeDescriptor_adds_id (r : String) (c : List CatalogEntry)
    (d : Descriptor) (mid : String) (hk : identityKey d = some mid) :
    mid ∈ (mergeDescriptor r c d).map CatalogEntry.modelId := by
  unfold mergeDescriptor
  rw [hk]
  by_cases hany : (c.any fun e => e.modelId == mid) = true
  · simp only [hany, if_true]
    rw [map_payload_modelId _ _ (forall2_map_payload (addRegion_forall2 r mid c))]
    obtain ⟨e, he, hbe⟩ := List.any_eq_true.mp hany
    exact List.mem_map.mpr ⟨e, he, by simpa using hbe⟩
  · rw [Bool.not_eq_true] at hany
    simp only [hany, Bool.false_eq_true, if_false, List.map_append]
    refine List.mem_append_right _ ?_
    simp [initEntry]

lemma mergeRegion_modelId_sup (r : String) (ds : List Descriptor) :
    ∀ (c : List CatalogEntry) (mid : String), mid ∈ c.map CatalogEntry.modelId →
      mid ∈ (mergeRegion c r ds).map CatalogEntry.modelId := by
  induction ds with
  | nil => intro c mid hm; exact hm
  | cons d rest ih =>
    intro c mid hm
    rw [mergeRegion_cons]
    exact ih _ mid (mergeDescriptor_modelId_sup r c d mid hm)

lemma mergeRegion_presence (r : String) (ds : List Descriptor) :
    ∀ (c : List CatalogEntry) (d : Descriptor) (mid : String), d ∈ ds →
      identityKey d = some mid →
      mid ∈ (mergeRegion c r ds).map CatalogEntry.modelId := by
  induction ds with
  | nil => intro c d mid hd; cases hd
  | cons d0 rest ih =>
    intro c d mid hd hk
    rw [mergeRegion_cons]
    rcases List.mem_cons.mp hd with rfl | hd'
    · exact mergeRegion_modelId_sup r rest _ mid (mergeDescriptor_adds_id r c d mid hk)
    · exact ih _ d mid hd' hk

lemma addRegion_id_of_mem (r mid : String) :
    ∀ c : List CatalogEntry, (∀ e ∈ c, r ∈ e.regions) → addRegion r mid c = c := by
  intro c
  induction c with
  | nil => intro _; rfl
  | cons e rest ih =>
    intro hc
    simp only [addRegion]
    by_cases h : (e.modelId == mid) = true
    · simp only [h, if_true]
      have hr : r ∈ e.regions := hc e (List.mem_cons_self e rest)
      simp [hr]
    · rw [Bool.not_eq_true] at h
      simp only [h, Bool.false_eq_true, if_false]
      rw [ih (fun e' he' => hc e' (List.mem_cons_of_mem _ he'))]

lemma mergeDescriptor_stable (r : String) (c : List CatalogEntry) (d : Descriptor)
    (hreg : ∀ e ∈ c, r ∈ e.regions)
    (hpres : ∀ mid, identityKey d = some mid → mid ∈ c.map CatalogEntry.modelId) :
    mergeDescriptor r c d = c := by
  unfold mergeDescriptor
  cases hk : identityKey d with
  | none => rfl
  | some mid =>
    have hany : (c.any fun e => e.modelId == mid) = true := by
      obtain ⟨e, he, hme⟩ := List.mem_map.mp (hpres mid hk)
      exact List.any_eq_true.mpr ⟨e, he, by simpa using hme⟩
    simp only [hany, if_true]
    exact addRegion_id_of_mem r mid c hreg

lemma mergeRegion_stable (r : String) (ds : List Descriptor) :
    ∀ c : List CatalogEntry, (∀ e ∈ c, r ∈ e.regions) →
      (∀ d ∈ ds, ∀ mid, identityKey d = some mid →
        mid ∈ c.map CatalogEntry.modelId) →
      mergeRegion c r ds = c := by
  induction ds with
  | nil => intro c _ _; rfl
  | cons d rest ih =>
    intro c hreg hpres
    rw [mergeRegion_cons,
      mergeDescriptor_stable r c d hreg (hpres d (List.mem_cons_self d rest))]
    exact ih c hreg fun d' hd' => hpres d' (List.mem_cons_of_mem _ hd')

/-- C9: merging one region's descriptor list a second time changes
nothing, and after a single-region run the region occurs exactly once
in each entry's region list. -/
theorem c9_merge_idempotent (region : String) (L : List Descriptor) :
    deduplicate_and_collect_models [(region, L), (region, L)] =
      deduplicate_and_collect_models [(region, L)] ∧
    ∀ e ∈ deduplicate_and_collect_models [(region, L)],
      List.count region e.regions = 1 := by
  have hdef1 : deduplicate_and_collect_models [(region, L)] =
      mergeRegion [] region L := rfl
  have hdef2 : deduplicate_and_collect_models [(region, L), (region, L)] =
      mergeRegion (mergeRegion [] region L) region L := rfl
  have hsingle : ∀ e ∈ mergeRegion [] region L, e.regions = [region] :=
    mergeRegion_regions_single region L [] (by intro e he; cases he)
  constructor
  · rw [hdef1, hdef2]
    refine mergeRegion_stable region L _ ?_ ?_
    · intro e he
      rw [hsingle e he]
      exact List.mem_singleton.mpr rfl
    · intro d hd mid hk
      exact mergeRegion_presence region L [] d mid hd hk
  · intro e he
    rw [hdef1] at he
    rw [hsingle e he]
    simp

/-- Witness for C9 at a concrete input. -/
theorem c9_merge_idempotent_witness :
    deduplicate_and_collect_models [("a", [dFooA]), ("a", [dFooA])] =
      deduplicate_and_collect_models [("a", [dFooA])] ∧
    List.count "a" (initEntry dFooA "m1" "a").regions = 1 :=
  ⟨(c9_merge_idempotent "a" [dFooA]).1,
   (c9_merge_idempotent "a" [dFooA]).2 (initEntry dFooA "m1" "a") (by decide)⟩

/-! ## Region Prober and run driver (`refresh-bedrock-data.py`)

The outcome of one `list_foundation_models` probe call:
either the call returns (with or without the `modelSummaries` field),
fails with a provider/transport error (`BotoCoreError`/`ClientError`),
or fails with any other exception (logged, region skipped). -/

inductive ProbeOutcome where
  | resp (hasModelSummaries : Bool)
  | transportError
  | unexpectedError
  deriving DecidableEq, Repr

/-- The loop body of `discover_bedrock_regions`: append a region iff
its probe call returns a response containing `modelSummaries`; both
error kinds skip the region and the loop carries on. -/
def discover_bedrock_regions (probe : String → ProbeOutcome) :
    List String → List String
  | [] => []
  | r :: rest =>
    match probe r with
    | .resp true => r :: discover_bedrock_regions probe rest
    | .resp false => discover_bedrock_regions probe rest
    | .transportError => discover_bedrock_regions probe rest
    | .unexpectedError => discover_bedrock_regions probe rest

/-- A region is supported iff the probe returned a response containing
the expected listing field. -/
def isSupported (o : ProbeOutcome) : Bool :=
  match o with
  | .resp b => b
  | .transportError => false
  | .unexpectedError => false

/-- An inference-profile descriptor (representative payload field). -/
structure ProfileDescriptor where
  inferenceProfileId : String
  deriving DecidableEq, Repr

/-- `profile_copy = profile.copy(); profile_copy["region"] = region`. -/
structure ProfileRecord where
  profile : ProfileDescriptor
  region : String
  deriving DecidableEq, Repr

/-- The loop of `deduplicate_and_collect_models` with the Model
Fetcher inlined: `fetch_models_from_region` re-raises any
provider/transport error, which `deduplicate_and_collect_models`
also re-raises, so a failing fetch aborts the whole collection. -/
def collectModels (fetch : String → Except Unit (List Descriptor)) :
    List String → List CatalogEntry → Except Unit (List CatalogEntry)
  | [], catalog => .ok catalog
  | r :: rest, catalog =>
    match fetch r with
    | .error e => .error e
    | .ok ds => collectModels fetch rest (mergeRegion catalog r ds)

/-- `collect_and_flatten_profiles`, likewise fatal on a failing fetch. -/
def collectProfiles (fetch : String → Except Unit (List ProfileDescriptor)) :
    List String → List ProfileRecord → Except Unit (List ProfileRecord)
  | [], acc => .ok acc
  | r :: rest, acc =>
    match fetch r with
    | .error e => .error e
    | .ok ps =>
      collectProfiles fetch rest (acc ++ ps.map fun p => { profile := p, region := r })

/-- Observable outcome of `BedrockDataCollector.run`: the process exit
code and which output files were written. `save_data` runs only after
both collections succeed, so nothing is written on any fatal path. -/
structure RunResult where
  exitCode : Nat
  filesWritten : List String
  deriving DecidableEq, Repr

/-- `BedrockDataCollector.run`: discover regions, abort with exit code 1
when none support the service or when any fetch on a supported region
fails, and write the two output files only on full success. -/
def run (probe : String → ProbeOutcome)
    (fetchModels : String → Except Unit (List Descriptor))
    (fetchProfiles : String → Except Unit (List ProfileDescriptor))
    (allRegions : List String) : RunResult :=
  let supported := discover_bedrock_regions probe allRegions
  if supported.isEmpty then { exitCode := 1, filesWritten := [] }
  else
    match collectModels fetchModels supported [] with
    | .error _ => { exitCode := 1, filesWritten := [] }
    | .ok _ =>
      match collectProfiles fetchProfiles supported [] with
      | .error _ => { exitCode := 1, filesWritten := [] }
      | .ok _ => { exitCode := 0, filesWritten := ["models.json", "profiles.json"] }

/-- The probe of Scenario D: `r2` raises a transport error, the other
candidates respond with the listing field. -/
def probeScenarioD : String → ProbeOutcome := fun r =>
  if r = "r2" then .transportError else .resp true

/-- C6: the prober returns exactly the candidates, in input order,
whose single probe succeeds with the expected listing field; a failing
candidate is skipped without aborting (Scenario D). -/
theorem c6_prober_filters_supported :
    (∀ (probe : String → ProbeOutcome) (regions : List String),
      discover_bedrock_regions probe regions =
        regions.filter fun r => isSupported (probe r)) ∧
    discover_bedrock_regions probeScenarioD ["r1", "r2", "r3"] = ["r1", "r3"] := by
  constructor
  · intro probe regions
    induction regions with
    | nil => rfl
    | cons r rest ih =>
      simp only [discover_bedrock_regions, List.filter_cons]
      cases h : probe r with
      | resp b =>
        cases b with
        | true => simp [isSupported, h, ih]
        | false => simp [isSupported, h, ih]
      | transportError => simp [isSupported, h, ih]
      | unexpectedError => simp [isSupported, h, ih]
  · decide

lemma collectModels_error (fetch : String → Except Unit (List Descriptor))
    (r : String) (hf : fetch r = .error ()) :
    ∀ (regions : List String) (catalog : List CatalogEntry), r ∈ regions →
      collectModels fetch regions catalog = .error () := by
  intro regions
  induction regions with
  | nil => intro catalog hr; cases hr
  | cons r0 rest ih =>
    intro catalog hr
    rcases List.mem_cons.mp hr with rfl | hr'
    · simp only [collectModels, hf]
    · simp only [collectModels]
      cases h0 : fetch r0 with
      | error e => cases e; rfl
      | ok ds => exact ih _ hr'

lemma collectProfiles_error (fetch : String → Except Unit (List ProfileDescriptor))
    (r : String) (hf : fetch r = .error ()) :
    ∀ (regions : List String) (acc : List ProfileRecord), r ∈ regions →
      collectProfiles fetch regions acc = .error () := by
  intro regions
  induction regions with
  | nil => intro acc hr; cases hr
  | cons r0 rest ih =>
    intro acc hr
    rcases List.mem_cons.mp hr with rfl | hr'
    · simp only [collectProfiles, hf]
    · simp only [collectProfiles]
      cases h0 : fetch r0 with
      | error e => cases e; rfl
      | ok ps => exact ih _ hr'

/-- C7: when a model-fetch or profile-fetch call fails on a region the
prober confirmed as supported, the run exits with a non-zero status and
writes no output file. -/
theorem c7_fetch_failure_fatal (probe : String → ProbeOutcome)
    (fetchModels : String → Except Unit (List Descriptor))
    (fetchProfiles : String → Except Unit (List ProfileDescriptor))
    (allRegions : List String) (r : String)
    (hr : r ∈ discover_bedrock_regions probe allRegions)
    (hf : fetchModels r = .error () ∨ fetchProfiles r = .error ()) :
    (run probe fetchModels fetchProfiles allRegions).exitCode ≠ 0 ∧
    (run probe fetchModels fetchProfiles allRegions).filesWritten = [] := by
  unfold run
  have hne : (discover_bedrock_regions probe allRegions).isEmpty = false := by
    cases hd : discover_bedrock_regions probe allRegions with
    | nil => rw [hd] at hr; cases hr
    | cons a l => rfl
  simp only [hne, Bool.false_eq_true, if_false]
  rcases hf with hf | hf
  · rw [collectModels_error fetchModels r hf _ [] hr]
    exact ⟨Nat.one_ne_zero, rfl⟩
  · cases hm : collectModels fetchModels (discover_bedrock_regions probe allRegions) [] with
    | error e => exact ⟨Nat.one_ne_zero, rfl⟩
    | ok catalog =>
      rw [collectProfiles_error fetchProfiles r hf _ [] hr]
      exact ⟨Nat.one_ne_zero, rfl⟩

/-- A probe for which every region responds with the listing field. -/
def probeAllOk : String → ProbeOutcome := fun _ => .resp true

/-- A model fetch that always raises a provider error. -/
def fetchModelsFail : String → Except Unit (List Descriptor) := fun _ => .error ()

/-- A profile fetch that always succeeds with an empty list. -/
def fetchProfilesEmpty : String → Except Unit (List ProfileDescriptor) := fun _ => .ok []

/-- Witness for C7 at a concrete input (Scenario E: `r1` is confirmed
supported, then its model fetch fails). -/
theorem c7_fetch_failure_fatal_witness :
    (run probeAllOk fetchModelsFail fetchProfilesEmpty ["r1"]).exitCode ≠ 0 ∧
    (run probeAllOk fetchModelsFail fetchProfilesEmpty ["r1"]).filesWritten = [] :=
  c7_fetch_failure_fatal probeAllOk fetchModelsFail fetchProfilesEmpty ["r1"] "r1"
    (by decide) (Or.inl rfl)

end Bedrock
